import Mathlib

/-
Verification of normal_mode_analysis/mean_nuc_mesh_from_data.py.

The geometric containment test (vtkSelectEnclosedPoints over a fixed
polydata surface) is external VTK code; it is abstracted as an oracle
answering whether a grid point (x, y, z) lies inside the solid.  Every
other operation of the pipeline (grid construction, per-plane mask
writes, uint8 accumulation with numpy wraparound, floating-point
division, z rescaling) is embedded directly from the source.
-/

namespace NormalModeAnalysis

/-- Containment oracle: abstracts the external VTK point-in-solid test
for one mesh (vtkSelectEnclosedPoints with that mesh as surface data):
given grid coordinates x, y, z it answers whether the point is inside. -/
abbrev Oracle := Nat → Nat → Nat → Bool

/-- A dense 3-D uint8 numpy array as allocated by np.zeros((nz, ny, nx),
dtype=np.uint8): axis 0 has length nz, axis 1 length ny, axis 2 length nx,
and data is read as data z y x.  Values are Nats kept below 256 by the
operations that build them. -/
structure Vol where
  nz : Nat
  ny : Nat
  nx : Nat
  data : Nat → Nat → Nat → Nat

/-- A float-valued 3-D array (the result of np.divide); element values are
modelled exactly in the rationals. -/
structure MeanVol where
  nz : Nat
  ny : Nat
  nx : Nat
  data : Nat → Nat → Nat → ℚ

theorem Vol.ext_data {A B : Vol} (hz : A.nz = B.nz) (hy : A.ny = B.ny)
    (hx : A.nx = B.nx) (hd : A.data = B.data) : A = B := by
  cases A; cases B; cases hz; cases hy; cases hx; cases hd; rfl

/-- Shape of a volume as the tuple of its axis lengths (axis 0, axis 1,
axis 2), i.e. the value of numpy .shape. -/
def shapeOf (v : Vol) : Nat × Nat × Nat := (v.nz, v.ny, v.nx)

/-- Marker value written for one grid point: 255 * vert_is_inside, the
value stored by mask[z, y, x] = 255 * vert_is_inside. -/
def insideMark (d : Oracle) (x y z : Nat) : Nat := if d x y z then 255 else 0

/-- Denotation of get_binary_mask_from_mesh(polydata, imsize): allocates
np.zeros((nz, ny, nx), dtype=np.uint8) with nx = imsize[0], ny = imsize[1],
nz = imsize[2]; the meshgrid covers every (x, y) with x < nx, y < ny, and
for each plane z the code writes mask[z, y, x] = 255 * IsInside(x, y, z).
This is the per-plane result in program order (the value each plane write
produces from its own classification). -/
def get_binary_mask_from_mesh (d : Oracle) (imsize : Nat × Nat × Nat) : Vol :=
  { nz := imsize.2.2
    ny := imsize.2.1
    nx := imsize.1
    data := fun z y x =>
      if z < imsize.2.2 ∧ y < imsize.2.1 ∧ x < imsize.1 then insideMark d x y z else 0 }

/-- Per-axis numpy broadcast rule for one dimension pair. -/
def bDim (a b : Nat) : Option Nat :=
  if a = b then some a else if a = 1 then some b else if b = 1 then some a else none

/-- Broadcast index: an axis of length 1 is read at index 0. -/
def bIdx (dim i : Nat) : Nat := if dim = 1 then 0 else i

/-- numpy np.add on two 3-D uint8 arrays: shapes are combined per axis by
the broadcasting rule (equal, or one side of length 1); incompatible
shapes raise (modelled as none); element values wrap modulo 256 (uint8
arithmetic). -/
def np_add (A B : Vol) : Option Vol :=
  (bDim A.nz B.nz).bind fun cz =>
    (bDim A.ny B.ny).bind fun cy =>
      (bDim A.nx B.nx).map fun cx =>
        { nz := cz, ny := cy, nx := cx
          data := fun z y x =>
            if z < cz ∧ y < cy ∧ x < cx then
              (A.data (bIdx A.nz z) (bIdx A.ny y) (bIdx A.nx x) +
                B.data (bIdx B.nz z) (bIdx B.ny y) (bIdx B.nx x)) % 256
            else 0 }

/-- numpy np.divide of a uint8 array by the integer n: exact elementwise
true division into floats, modelled in ℚ. -/
def np_divide (A : Vol) (n : Nat) : MeanVol :=
  ⟨A.nz, A.ny, A.nx, fun z y x => (A.data z y x : ℚ) / n⟩

/-- The accumulation loop of get_mean_mask applied to an explicit sequence
of volumes: sum_mask starts as the first volume, then the loop adds every
volume of the sequence (including the first again) with np.add, and the
result is divided by the sequence length.  An empty sequence fails (the
code indexes row 0 of the dataframe). -/
def aggregate (vols : List Vol) : Option MeanVol :=
  match vols with
  | [] => none
  | v0 :: _ =>
      (vols.foldlM (fun acc v => np_add acc v) v0).map fun s => np_divide s vols.length

/-- get_mean_mask(df, imsize): rasterizes entry 0 as the initial sum_mask,
then for i in range(N) rasterizes entry i and np.adds it into sum_mask,
and finally np.divides by N = df.shape[0]. -/
def get_mean_mask (ds : List Oracle) (imsize : Nat × Nat × Nat) : Option MeanVol :=
  match ds with
  | [] => none
  | d0 :: _ =>
      ((ds.map fun d => get_binary_mask_from_mesh d imsize).foldlM
          (fun acc v => np_add acc v) (get_binary_mask_from_mesh d0 imsize)).map
        fun s => np_divide s ds.length

/-- Value of the published mean volume at one grid index, when the run
succeeds. -/
def meanAt (ds : List Oracle) (imsize : Nat × Nat × Nat) (z y x : Nat) : Option ℚ :=
  (get_mean_mask ds imsize).map fun m => m.data z y x

/-- Sum of the per-entry marker values at one grid point, each dataset
entry counted exactly once, in exact (non-wrapping) arithmetic. -/
def sumMarks (ds : List Oracle) (x y z : Nat) : Nat :=
  (ds.map fun d => insideMark d x y z).sum

/-- Modelled from the spec (the aggregation contract): the published mean
is the element-wise sum of the N per-entry occupancy volumes, each entry
contributing exactly once, divided by N with no rounding. -/
def spec_mean_at (ds : List Oracle) (imsize : Nat × Nat × Nat) (z y x : Nat) : ℚ :=
  if z < imsize.2.2 ∧ y < imsize.2.1 ∧ x < imsize.1 then
    (sumMarks ds x y z : ℚ) / ds.length
  else 0

/-- The oracle of a mesh containing every grid point. -/
def oracleAllIn : Oracle := fun _ _ _ => true

/-- The oracle of a mesh containing no grid point. -/
def oracleAllOut : Oracle := fun _ _ _ => false

/-- numpy np.round: round half to even (banker's rounding), as a float
value used as divisor, modelled on ℚ with integer result. -/
def np_round (q : ℚ) : Int :=
  if q - Int.floor q < 1 / 2 then Int.floor q
  else if (1 : ℚ) / 2 < q - Int.floor q then Int.floor q + 1
  else if (2 : Int) ∣ Int.floor q then Int.floor q else Int.floor q + 1

/-- The loop of fix_z: for vert in verts: vert[2] *= dz.  Each vertex
keeps its x (index 0) and y (index 1) entries and has its z (index 2)
entry multiplied by the corrected spacing. -/
def scaleZ (dzc : ℚ) : List (ℚ × ℚ × ℚ) → List (ℚ × ℚ × ℚ)
  | [] => []
  | v :: rest => (v.1, v.2.1, v.2.2 * dzc) :: scaleZ dzc rest

/-- fix_z(verts, dz, imsize): nz = np.round(imsize / dz); dz = imsize / nz;
then the loop multiplies every vertex's index-2 entry by the corrected
spacing and verts is returned. -/
def fix_z (verts : List (ℚ × ℚ × ℚ)) (dz imsize : ℚ) : List (ℚ × ℚ × ℚ) :=
  scaleZ (imsize / (np_round (imsize / dz) : ℚ)) verts

theorem scaleZ_eq_map (dzc : ℚ) (verts : List (ℚ × ℚ × ℚ)) :
    scaleZ dzc verts = verts.map fun v => (v.1, v.2.1, v.2.2 * dzc) := by
  induction verts with
  | nil => rfl
  | cons v rest ih => simp [scaleZ, ih]

/-- C6: for every vertex list, z-extent imsize and spacing dz > 0, fix_z
computes nz = round(imsize / dz) and the corrected spacing imsize / nz, and
returns the vertices with each z coordinate multiplied by that corrected
spacing (x and y entries untouched). -/
theorem fix_z_spec (verts : List (ℚ × ℚ × ℚ)) (dz imsize : ℚ) (hdz : 0 < dz) :
    fix_z verts dz imsize =
      verts.map fun v => (v.1, v.2.1, v.2.2 * (imsize / (np_round (imsize / dz) : ℚ))) := by
  unfold fix_z
  exact scaleZ_eq_map _ verts

/-- Witness for C6 at a concrete input: verts = [(1, 2, 3)], dz = 1/2,
imsize = 2, so nz = round(4) = 4, corrected spacing = 1/2, output
[(1, 2, 3/2)]. -/
theorem fix_z_spec_witness :
    (0 : ℚ) < 1 / 2 ∧
      fix_z [((1 : ℚ), (2 : ℚ), (3 : ℚ))] (1 / 2) 2 =
        [((1 : ℚ), (2 : ℚ), (3 : ℚ))].map
          (fun v => (v.1, v.2.1, v.2.2 * ((2 : ℚ) / (np_round ((2 : ℚ) / (1 / 2)) : ℚ)))) :=
  ⟨by norm_num, fix_z_spec [((1 : ℚ), (2 : ℚ), (3 : ℚ))] (1 / 2) 2 (by norm_num)⟩

/-- C10: fix_z preserves the number of vertices, preserves every vertex's
x (index 0) and y (index 1) entries, and rewrites only the z (index 2)
entry, multiplying it by the corrected spacing. -/
theorem fix_z_frame (verts : List (ℚ × ℚ × ℚ)) (dz imsize : ℚ) :
    (fix_z verts dz imsize).length = verts.length ∧
      (fix_z verts dz imsize).map (fun v => (v.1, v.2.1)) =
        verts.map (fun v => (v.1, v.2.1)) ∧
      (fix_z verts dz imsize).map (fun v => v.2.2) =
        verts.map fun v => v.2.2 * (imsize / (np_round (imsize / dz) : ℚ)) := by
  unfold fix_z
  rw [scaleZ_eq_map]
  refine ⟨by simp, by simp, by simp⟩

/-- C7 counterexample: rasterizing at imsize = (2, 3, 4) (nx = 2, ny = 3,
nz = 4) yields a volume of numpy shape (4, 3, 2): the first axis has
length nz = 4, not nx = 2. -/
theorem rasterize_shape_counterexample :
    shapeOf (get_binary_mask_from_mesh oracleAllOut (2, 3, 4)) = (4, 3, 2) ∧
      ((4 : Nat), (3 : Nat), (2 : Nat)) ≠ ((2 : Nat), (3 : Nat), (4 : Nat)) := by
  decide

/-- C7 amended: for every input size (nx, ny, nz) with positive
components, the occupancy volume returned by the rasterizer is a dense
3-D array of shape (nz, ny, nx): its first axis has length nz, its second
ny, and its third nx. -/
theorem rasterize_shape (d : Oracle) (nx ny nz : Nat)
    (hx : 0 < nx) (hy : 0 < ny) (hz : 0 < nz) :
    shapeOf (get_binary_mask_from_mesh d (nx, ny, nz)) = (nz, ny, nx) := rfl

/-- Witness for the amended C7 at the concrete size (2, 3, 4). -/
theorem rasterize_shape_witness :
    0 < 2 ∧ 0 < 3 ∧ 0 < 4 ∧
      shapeOf (get_binary_mask_from_mesh oracleAllOut (2, 3, 4)) = (4, 3, 2) :=
  ⟨by decide, by decide, by decide,
    rasterize_shape oracleAllOut 2 3 4 (by decide) (by decide) (by decide)⟩

/-- A volume of shape (nz, ny, nx) whose in-bounds entries are the uint8
reduction (mod 256) of a Nat-valued field and whose out-of-bounds entries
are 0: the normal form every accumulator of the pipeline has. -/
def normVol (nz ny nx : Nat) (f : Nat → Nat → Nat → Nat) : Vol :=
  ⟨nz, ny, nx, fun z y x => if z < nz ∧ y < ny ∧ x < nx then f z y x % 256 else 0⟩

theorem bIdx_of_lt {dim i : Nat} (h : i < dim) : bIdx dim i = i := by
  unfold bIdx
  split
  · omega
  · rfl

theorem bDim_self (a : Nat) : bDim a a = some a := by simp [bDim]

theorem rast_norm (d : Oracle) (nx ny nz : Nat) :
    get_binary_mask_from_mesh d (nx, ny, nz) =
      normVol nz ny nx fun z y x => insideMark d x y z := by
  refine Vol.ext_data rfl rfl rfl ?_
  funext z y x
  show (if z < nz ∧ y < ny ∧ x < nx then insideMark d x y z else 0) = _
  unfold normVol
  by_cases h : z < nz ∧ y < ny ∧ x < nx
  · rw [if_pos h]
    show insideMark d x y z = if z < nz ∧ y < ny ∧ x < nx then insideMark d x y z % 256 else 0
    rw [if_pos h]
    unfold insideMark
    split <;> rfl
  · rw [if_neg h]
    show (0 : Nat) = if z < nz ∧ y < ny ∧ x < nx then insideMark d x y z % 256 else 0
    rw [if_neg h]

theorem np_add_norm (nz ny nx : Nat) (f g : Nat → Nat → Nat → Nat) :
    np_add (normVol nz ny nx f) (normVol nz ny nx g) =
      some (normVol nz ny nx fun z y x => f z y x + g z y x) := by
  unfold np_add
  show ((bDim nz nz).bind _ : Option Vol) = _
  rw [bDim_self]
  show ((bDim ny ny).bind _ : Option Vol) = _
  rw [bDim_self]
  show ((bDim nx nx).map _ : Option Vol) = _
  rw [bDim_self]
  show some _ = some _
  refine congrArg some (Vol.ext_data rfl rfl rfl ?_)
  funext z y x
  dsimp only [normVol]
  by_cases h : z < nz ∧ y < ny ∧ x < nx
  · simp only [bIdx_of_lt h.1, bIdx_of_lt h.2.1, bIdx_of_lt h.2.2, if_pos h]
    omega
  · simp only [if_neg h]

theorem sumMarks_cons (d : Oracle) (ds : List Oracle) (x y z : Nat) :
    sumMarks (d :: ds) x y z = insideMark d x y z + sumMarks ds x y z := by
  simp [sumMarks]

theorem foldl_add_masks (rest : List Oracle) (nx ny nz : Nat)
    (f : Nat → Nat → Nat → Nat) :
    ((rest.map fun d => get_binary_mask_from_mesh d (nx, ny, nz)).foldlM
        (fun acc v => np_add acc v) (normVol nz ny nx f)) =
      some (normVol nz ny nx fun z y x => f z y x + sumMarks rest x y z) := by
  induction rest generalizing f with
  | nil =>
      simp only [List.map_nil, List.foldlM_nil]
      refine congrArg some (Vol.ext_data rfl rfl rfl ?_)
      funext z y x
      simp [normVol, sumMarks]
  | cons d ds ih =>
      simp only [List.map_cons, List.foldlM_cons]
      rw [rast_norm, np_add_norm]
      show ((ds.map fun dd => get_binary_mask_from_mesh dd (nx, ny, nz)).foldlM
          (fun acc v => np_add acc v) (normVol nz ny nx _)) = _
      rw [ih]
      refine congrArg some (Vol.ext_data rfl rfl rfl ?_)
      funext z y x
      simp only [normVol, sumMarks_cons]
      by_cases h : z < nz ∧ y < ny ∧ x < nx
      · rw [if_pos h, if_pos h]
        congr 1
        omega
      · rw [if_neg h, if_neg h]

theorem get_mean_mask_char (d0 : Oracle) (rest : List Oracle) (nx ny nz : Nat) :
    get_mean_mask (d0 :: rest) (nx, ny, nz) =
      some (np_divide
        (normVol nz ny nx fun z y x =>
          insideMark d0 x y z + sumMarks (d0 :: rest) x y z)
        (rest.length + 1)) := by
  show (((d0 :: rest).map fun d => get_binary_mask_from_mesh d (nx, ny, nz)).foldlM
      (fun acc v => np_add acc v) (get_binary_mask_from_mesh d0 (nx, ny, nz))).map
      (fun s => np_divide s (d0 :: rest).length) = _
  rw [rast_norm, foldl_add_masks]
  simp [List.length_cons]

theorem meanAt_allIn : meanAt [oracleAllIn] (1, 1, 1) 0 0 0 = some 254 := by
  rw [meanAt, get_mean_mask_char oracleAllIn [] 1 1 1]
  simp only [Option.map_some', Option.some.injEq]
  norm_num [np_divide, normVol, insideMark, sumMarks, oracleAllIn]

theorem meanAt_allOut : meanAt [oracleAllOut] (1, 1, 1) 0 0 0 = some 0 := by
  rw [meanAt, get_mean_mask_char oracleAllOut [] 1 1 1]
  simp only [Option.map_some', Option.some.injEq]
  norm_num [np_divide, normVol, insideMark, sumMarks, oracleAllOut]

theorem meanAt_twoIn :
    meanAt [oracleAllIn, oracleAllIn] (1, 1, 1) 0 0 0 = some (253 / 2) := by
  rw [meanAt, get_mean_mask_char oracleAllIn [oracleAllIn] 1 1 1]
  simp only [Option.map_some', Option.some.injEq]
  norm_num [np_divide, normVol, insideMark, sumMarks, oracleAllIn]

/-- C1: rasterizing evaluation of get_mean_mask at a failing input.  For
the one-mesh dataset whose containment test marks every grid point inside,
at imsize (1, 1, 1): the code initializes sum_mask with entry 0 and then
adds entry 0 again in the loop over range(N), so the published mean value
is ((255 + 255) mod 256) / 1 = 254, while the spec-side mean (each entry
accumulated exactly once, exact sum divided by N) is 255 / 1 = 255. -/
theorem mean_mask_double_counts_entry_zero :
    meanAt [oracleAllIn] (1, 1, 1) 0 0 0 = some 254 ∧
      spec_mean_at [oracleAllIn] (1, 1, 1) 0 0 0 = 255 ∧ ((254 : ℚ) ≠ 255) := by
  refine ⟨meanAt_allIn, ?_, by norm_num⟩
  norm_num [spec_mean_at, sumMarks, insideMark, oracleAllIn]

/-- C3 counterexample: with the single all-inside mesh at imsize (1, 1, 1)
the published mean volume holds the value 254 at (0, 0, 0), which does not
lie in [0, 1]. -/
theorem mean_range_counterexample :
    meanAt [oracleAllIn] (1, 1, 1) 0 0 0 = some 254 ∧ ¬((254 : ℚ) ≤ 1) :=
  ⟨meanAt_allIn, by norm_num⟩

/-- C3 amended: every element of the published mean volume lies in
[0, 255] (not [0, 1]): it is a mod-256 uint8 accumulated sum, hence at
most 255, divided with no rounding by the count N ≥ 1; the inside marker
is 255, not 1, so fractional occupancy is scaled by 255. -/
theorem mean_mask_range (ds : List Oracle) (imsize : Nat × Nat × Nat)
    (z y x : Nat) (q : ℚ) (h : meanAt ds imsize z y x = some q) :
    0 ≤ q ∧ q ≤ 255 := by
  obtain ⟨nx, ny, nz⟩ := imsize
  cases ds with
  | nil => simp [meanAt, get_mean_mask] at h
  | cons d0 rest =>
      rw [meanAt, get_mean_mask_char] at h
      simp only [Option.map_some', Option.some.injEq] at h
      subst h
      dsimp only [np_divide]
      have hle : (normVol nz ny nx fun zz yy xx =>
          insideMark d0 xx yy zz + sumMarks (d0 :: rest) xx yy zz).data z y x ≤ 255 := by
        dsimp only [normVol]
        split
        · omega
        · omega
      have hN1 : (1 : ℚ) ≤ ((rest.length + 1 : Nat) : ℚ) := by
        exact_mod_cast Nat.succ_le_succ (Nat.zero_le rest.length)
      have hN0 : (0 : ℚ) < ((rest.length + 1 : Nat) : ℚ) := lt_of_lt_of_le one_pos hN1
      constructor
      · exact div_nonneg (Nat.cast_nonneg _) (le_of_lt hN0)
      · rw [div_le_iff₀ hN0]
        refine le_trans ?_ (le_mul_of_one_le_right (by norm_num) hN1)
        exact_mod_cast hle

/-- Witness for the amended C3 at a concrete input: the all-outside mesh
at imsize (1, 1, 1) gives the mean value 0, which lies in [0, 255]. -/
theorem mean_mask_range_witness :
    meanAt [oracleAllOut] (1, 1, 1) 0 0 0 = some 0 ∧
      (0 ≤ (0 : ℚ) ∧ (0 : ℚ) ≤ 255) :=
  ⟨meanAt_allOut, mean_mask_range [oracleAllOut] (1, 1, 1) 0 0 0 0 meanAt_allOut⟩

/-- A 1 x 1 x 2 volume of zeros (shape established first). -/
def volA : Vol := ⟨1, 1, 2, fun _ _ _ => 0⟩

/-- A 1 x 1 x 1 volume holding 10: its shape disagrees with volA's. -/
def volB : Vol := ⟨1, 1, 1, fun _ _ _ => 10⟩

/-- C8 counterexample: volB's shape (1, 1, 1) differs from the established
shape (1, 1, 2) of volA, yet the accumulation loop silently combines them
by numpy broadcasting and publishes a mean volume of shape (1, 1, 2) with
value 10 / 2 = 5 everywhere: it does not fail with a ShapeMismatch error
(no such check exists in the code). -/
theorem aggregate_no_shape_check :
    shapeOf volB ≠ shapeOf volA ∧
      (aggregate [volA, volB]).map
          (fun m => ((m.nz, m.ny, m.nx), m.data 0 0 0, m.data 0 0 1)) =
        some ((1, 1, 2), 5, 5) := by
  refine ⟨by decide, ?_⟩
  show (((([volA, volB]).foldlM (fun acc v => np_add acc v) volA).map
      fun s => np_divide s 2).map
      fun m => ((m.nz, m.ny, m.nx), m.data 0 0 0, m.data 0 0 1)) = _
  norm_num [List.foldlM_cons, List.foldlM_nil, np_add, bDim, bIdx, volA, volB,
    np_divide]

/-- C8 amended: the aggregation performs no shape check, and in this
pipeline a mismatch can never arise: every volume the loop consumes is
rasterized at the same imsize and so has the established shape
(nz, ny, nx), and the run always produces a mean volume; a mismatched but
broadcast-compatible volume would be silently combined by numpy
broadcasting (see the counterexample), not rejected with a ShapeMismatch
error. -/
theorem get_mean_mask_total (ds : List Oracle) (imsize : Nat × Nat × Nat)
    (h : ds ≠ []) :
    (∀ d ∈ ds, shapeOf (get_binary_mask_from_mesh d imsize) =
        (imsize.2.2, imsize.2.1, imsize.1)) ∧
      (get_mean_mask ds imsize).isSome = true := by
  refine ⟨fun d _ => rfl, ?_⟩
  obtain ⟨nx, ny, nz⟩ := imsize
  cases ds with
  | nil => exact absurd rfl h
  | cons d0 rest => rw [get_mean_mask_char]; rfl

/-- Witness for the amended C8 at a concrete input. -/
theorem get_mean_mask_total_witness :
    ([oracleAllOut] ≠ ([] : List Oracle)) ∧
      ((∀ d ∈ [oracleAllOut], shapeOf (get_binary_mask_from_mesh d (1, 1, 1)) =
          (1, 1, 1)) ∧
        (get_mean_mask [oracleAllOut] (1, 1, 1)).isSome = true) :=
  ⟨List.cons_ne_nil _ _,
    get_mean_mask_total [oracleAllOut] (1, 1, 1) (List.cons_ne_nil _ _)⟩

theorem sumMarks_eq_count (ds : List Oracle) (x y z : Nat) :
    sumMarks ds x y z = 255 * ds.countP (fun d => d x y z) := by
  induction ds with
  | nil => rfl
  | cons d rest ih =>
      rw [sumMarks_cons, ih]
      by_cases h : d x y z = true
      · simp only [insideMark, List.countP_cons, h, if_pos]
        ring
      · simp only [insideMark, List.countP_cons, h]
        simp [h]

/-- The occupancy volume of an all-inside mesh at imsize (1, 1, 1): one
voxel holding the inside marker 255. -/
def vol255 : Vol := get_binary_mask_from_mesh oracleAllIn (1, 1, 1)

/-- C9: the per-entry volumes use inside marker 255 and are accumulated
with uint8 (mod-256) arithmetic: np.add of two marker-255 voxels yields
254, and at any grid point classified inside by two or more dataset
entries the published mean differs from the arithmetic mean of the
per-entry marker values (the true marker sum is at least 510, while the
stored mod-256 sum is at most 255). -/
theorem mean_mask_wraparound (ds : List Oracle) (imsize : Nat × Nat × Nat)
    (z y x : Nat) (q : ℚ)
    (hz : z < imsize.2.2) (hy : y < imsize.2.1) (hx : x < imsize.1)
    (h2 : 2 ≤ ds.countP (fun d => d x y z))
    (h : meanAt ds imsize z y x = some q) :
    ((np_add vol255 vol255).map fun v => v.data 0 0 0) = some 254 ∧
      q ≠ (sumMarks ds x y z : ℚ) / (ds.length : ℚ) := by
  refine ⟨by decide, ?_⟩
  obtain ⟨nx, ny, nz⟩ := imsize
  cases ds with
  | nil => simp at h2
  | cons d0 rest =>
      rw [meanAt, get_mean_mask_char] at h
      simp only [Option.map_some', Option.some.injEq] at h
      subst h
      have hb : z < nz ∧ y < ny ∧ x < nx := ⟨hz, hy, hx⟩
      have hSigma : 510 ≤ sumMarks (d0 :: rest) x y z := by
        rw [sumMarks_eq_count]
        generalize (d0 :: rest).countP (fun d => d x y z) = k at h2
        omega
      clear h2
      have hNe : ((insideMark d0 x y z + sumMarks (d0 :: rest) x y z) % 256 : Nat)
          ≠ sumMarks (d0 :: rest) x y z := by omega
      have hN : (((d0 :: rest).length : Nat) : ℚ) ≠ 0 := by
        rw [List.length_cons]
        exact_mod_cast Nat.succ_ne_zero rest.length
      intro heq
      apply hNe
      have hval : ((normVol nz ny nx fun zz yy xx =>
          insideMark d0 xx yy zz + sumMarks (d0 :: rest) xx yy zz).data z y x : ℚ) =
          ((insideMark d0 x y z + sumMarks (d0 :: rest) x y z) % 256 : Nat) := by
        dsimp only [normVol]
        rw [if_pos hb]
      have hfrac : (((insideMark d0 x y z + sumMarks (d0 :: rest) x y z) % 256 : Nat) : ℚ) /
          ((rest.length + 1 : Nat) : ℚ) =
          (sumMarks (d0 :: rest) x y z : ℚ) / (((d0 :: rest).length : Nat) : ℚ) := by
        rw [← hval]
        exact heq
      rw [List.length_cons] at hfrac
      have hcast : (((insideMark d0 x y z + sumMarks (d0 :: rest) x y z) % 256 : Nat) : ℚ) =
          (sumMarks (d0 :: rest) x y z : ℚ) := by
        have hN2 : ((rest.length + 1 : Nat) : ℚ) ≠ 0 := by
          exact_mod_cast Nat.succ_ne_zero rest.length
        have h1 := congrArg (fun t : ℚ => t * ((rest.length + 1 : Nat) : ℚ)) hfrac
        dsimp only at h1
        rwa [div_mul_cancel₀ _ hN2, div_mul_cancel₀ _ hN2] at h1
      exact_mod_cast hcast

/-- Witness for C9 at a concrete input: two all-inside meshes at imsize
(1, 1, 1).  The stored sum is (255 + 255 + 255) mod 256 = 253 (entry 0 is
also double counted), the published mean is 253 / 2, and the arithmetic
mean of the marker values is 510 / 2 = 255. -/
theorem mean_mask_wraparound_witness :
    (0 < 1 ∧ 2 ≤ ([oracleAllIn, oracleAllIn].countP fun d => d 0 0 0) ∧
        meanAt [oracleAllIn, oracleAllIn] (1, 1, 1) 0 0 0 = some (253 / 2)) ∧
      (((np_add vol255 vol255).map fun v => v.data 0 0 0) = some 254 ∧
        (253 / 2 : ℚ) ≠ (sumMarks [oracleAllIn, oracleAllIn] 0 0 0 : ℚ) /
          (([oracleAllIn, oracleAllIn] : List Oracle).length : ℚ)) :=
  ⟨⟨by decide, by decide, meanAt_twoIn⟩,
    mean_mask_wraparound [oracleAllIn, oracleAllIn] (1, 1, 1) 0 0 0 (253 / 2)
      (by decide) (by decide) (by decide) (by decide) meanAt_twoIn⟩

/-- One worker action of the parallel per-plane loop of
get_binary_mask_from_mesh.  The task for plane z consists, in program
order, of: setPts z (the for-loop writing z into every point of the shared
xypts buffer), classifyPts z (vtkSelectEnclosedPoints classifying the
shared buffer's points and writing the shared vert_is_inside buffer), and
writePlane z (mask[z, y, x] = 255 * vert_is_inside). -/
inductive PlaneAct where
  | setPts : Nat → PlaneAct
  | classifyPts : Nat → PlaneAct
  | writePlane : Nat → PlaneAct
deriving DecidableEq

/-- The plane index a worker action belongs to. -/
def actZ : PlaneAct → Nat
  | .setPts z => z
  | .classifyPts z => z
  | .writePlane z => z

/-- Shared state of the threaded workers: the z coordinate currently held
by the shared xypts buffer, the shared vert_is_inside buffer, and the
output mask (np.zeros layout (nz, ny, nx)). -/
structure RaceState where
  bufZ : Nat
  vis : Nat → Nat → Bool
  mask : Nat → Nat → Nat → Nat

/-- Effect of one action on the shared state: setPts z overwrites the
shared buffer's z coordinate; classifyPts classifies the buffer's current
points against the surface (the oracle read at the buffer's present z,
whichever task wrote it last) into the shared vert_is_inside buffer;
writePlane z writes plane z of the mask from vert_is_inside. -/
def stepAct (d : Oracle) (nx ny : Nat) (s : RaceState) : PlaneAct → RaceState
  | .setPts z => { s with bufZ := z }
  | .classifyPts _ => { s with vis := fun x y => d x y s.bufZ }
  | .writePlane z =>
      { s with mask := fun zq yq xq =>
          if zq = z ∧ yq < ny ∧ xq < nx then (if s.vis xq yq then 255 else 0)
          else s.mask zq yq xq }

/-- Initial shared state: xypts built with z = 0, vert_is_inside zeroed,
mask = np.zeros. -/
def initRace : RaceState := ⟨0, fun _ _ => false, fun _ _ _ => 0⟩

/-- Run of the worker pool under one interleaving (schedule) of the plane
tasks' actions. -/
def parRun (d : Oracle) (nx ny : Nat) (sched : List PlaneAct) : RaceState :=
  sched.foldl (stepAct d nx ny) initRace

/-- Program of the task for plane z, in program order. -/
def planeProg (z : Nat) : List PlaneAct :=
  [PlaneAct.setPts z, PlaneAct.classifyPts z, PlaneAct.writePlane z]

/-- A schedule is valid for nz planes when it is an interleaving of the nz
plane tasks: it has exactly their 3 * nz actions and, restricted to any one
plane's actions, is exactly that plane's program in program order. -/
def validSched (nzv : Nat) (s : List PlaneAct) : Prop :=
  s.length = 3 * nzv ∧ ∀ z < nzv, s.filter (fun a => actZ a == z) = planeProg z

/-- The serial (single-worker) schedule: the plane tasks run one after the
other in z order. -/
def serialSched (nzv : Nat) : List PlaneAct := (List.range nzv).flatMap planeProg

instance validSchedDecidable (nzv : Nat) (s : List PlaneAct) :
    Decidable (validSched nzv s) :=
  decidable_of_iff
    (s.length = 3 * nzv ∧ ∀ z < nzv, s.filter (fun a => actZ a == z) = planeProg z)
    Iff.rfl

/-- The surface whose containment test accepts exactly the points of plane
z = 0. -/
def oracleZ0 : Oracle := fun _ _ z => z == 0

/-- A 2-worker interleaving: the task of plane 1 overwrites the shared
xypts buffer after the task of plane 0 filled it but before plane 0's
classification reads it. -/
def schedRace : List PlaneAct :=
  [PlaneAct.setPts 0, PlaneAct.setPts 1, PlaneAct.classifyPts 0,
    PlaneAct.writePlane 0, PlaneAct.classifyPts 1, PlaneAct.writePlane 1]

/-- C2: rasterization is not deterministic across worker schedules.  For
the surface occupying exactly plane z = 0 at size (1, 1, 2), the serial
(1-worker) schedule writes mask[0,0,0] = 255 (agreeing with the per-plane
program-order denotation get_binary_mask_from_mesh), while a valid
2-worker interleaving of the same two plane tasks writes mask[0,0,0] = 0,
because both tasks mutate the shared xypts and vert_is_inside buffers
without synchronization.  Two runs of the same rasterization can therefore
differ bit for bit. -/
theorem rasterize_race_nondeterministic :
    validSched 2 (serialSched 2) ∧ validSched 2 schedRace ∧
      (parRun oracleZ0 1 1 (serialSched 2)).mask 0 0 0 = 255 ∧
      (parRun oracleZ0 1 1 schedRace).mask 0 0 0 = 0 ∧
      (get_binary_mask_from_mesh oracleZ0 (1, 1, 2)).data 0 0 0 = 255 := by
  refine ⟨by decide, by decide, by decide, by decide, by decide⟩

/-- get_mean_mesh(mask, ss): calls measure.marching_cubes_lewiner(mask,
step_size=ss) and returns the verts and faces exactly as produced (the
normals and values are dropped); the extractor itself is external skimage
code, abstracted as the argument mc.  No fix_z call appears. -/
def get_mean_mesh {α : Type} (mc : MeanVol → α → List (ℚ × ℚ × ℚ) × List (Nat × Nat × Nat))
    (mask : MeanVol) (ss : α) : List (ℚ × ℚ × ℚ) × List (Nat × Nat × Nat) :=
  mc mask ss

/-- get_mean_mesh_from_individual_meshes(df, imsize): computes the mean
mask, then calls get_mean_mesh(mask, imsize) — passing imsize in the
step-size position — and returns (verts, faces, mask) with the vertices
exactly as the isosurfacer produced them. -/
def get_mean_mesh_from_individual_meshes
    (mc : MeanVol → (Nat × Nat × Nat) → List (ℚ × ℚ × ℚ) × List (Nat × Nat × Nat))
    (ds : List Oracle) (imsize : Nat × Nat × Nat) :
    Option (List (ℚ × ℚ × ℚ) × List (Nat × Nat × Nat) × MeanVol) :=
  (get_mean_mask ds imsize).map fun mask =>
    ((get_mean_mesh mc mask imsize).1, (get_mean_mesh mc mask imsize).2, mask)

/-- An isosurfacer returning the single vertex (0, 0, 1) and no faces,
whatever the volume. -/
def mcUnit : MeanVol → (Nat × Nat × Nat) → List (ℚ × ℚ × ℚ) × List (Nat × Nat × Nat) :=
  fun _ _ => ([((0 : ℚ), (0 : ℚ), (1 : ℚ))], [])

theorem np_round_natCast (n : Nat) : np_round (n : ℚ) = (n : Int) := by
  have hc : (n : ℚ) - ((n : Int) : ℚ) < 1 / 2 := by push_cast; norm_num
  unfold np_round
  rw [Int.floor_natCast, if_pos hc]

/-- C4: the end-to-end pipeline applies no z rescaling.  With an
isosurfacer producing the vertex (0, 0, 1), the pipeline returns that
vertex unchanged; fix_z (which is never called on this path) would, for
dz = 1/2 and z-extent 1, return (0, 0, 1/2) instead, and the two disagree.
The pipeline does not even receive a dz argument to rescale with. -/
theorem pipeline_no_z_rescale :
    (get_mean_mesh_from_individual_meshes mcUnit [oracleAllIn] (1, 1, 1)).map
        (fun r => r.1) = some [((0 : ℚ), (0 : ℚ), (1 : ℚ))] ∧
      fix_z [((0 : ℚ), (0 : ℚ), (1 : ℚ))] (1 / 2) 1 =
        [((0 : ℚ), (0 : ℚ), (1 : ℚ) / 2)] ∧
      ([((0 : ℚ), (0 : ℚ), (1 : ℚ))] : List (ℚ × ℚ × ℚ)) ≠
        [((0 : ℚ), (0 : ℚ), (1 : ℚ) / 2)] := by
  refine ⟨?_, ?_, ?_⟩
  · rw [get_mean_mesh_from_individual_meshes, get_mean_mask_char oracleAllIn [] 1 1 1]
    rfl
  · have hq : ((1 : ℚ) / (1 / 2)) = ((2 : Nat) : ℚ) := by norm_num
    have hr : np_round ((1 : ℚ) / (1 / 2)) = 2 := by
      rw [hq, np_round_natCast]
      norm_num
    rw [fix_z, hr]
    norm_num [scaleZ]
  · intro hcontra
    have h1 : ((1 : ℚ), (2 : ℚ)) = ((1 : ℚ), (2 : ℚ)) := rfl
    have h2 := List.head_eq_of_cons_eq hcontra
    rw [Prod.ext_iff] at h2
    rw [Prod.ext_iff] at h2
    norm_num at h2

/-- Modelled from the spec: the repository calls the external skimage
routine measure.marching_cubes_lewiner, whose code is not part of this
repository; the spec fixes only that it is a marching-cubes-family
extraction at the iso-level separating inside from outside.  The grid
indices of a volume, in z, y, x order. -/
def volIdx (m : MeanVol) : List (Nat × Nat × Nat) :=
  (List.range m.nz).flatMap fun z =>
    (List.range m.ny).flatMap fun y =>
      (List.range m.nx).map fun x => (z, y, x)

/-- Modelled from the spec: the element values of a volume. -/
def volVals (m : MeanVol) : List ℚ :=
  (volIdx m).map fun p => m.data p.1 p.2.1 p.2.2

/-- Modelled from the spec: the iso-level, the boundary between inside and
outside fractional occupancy, taken as the midpoint of the volume's data
range (the default when no explicit level is passed). -/
def isoLevel (m : MeanVol) : ℚ :=
  match volVals m with
  | [] => 0
  | v :: vs => (vs.foldl min v + vs.foldl max v) / 2

/-- Modelled from the spec: a grid point counts as inside when its value
strictly exceeds the iso-level. -/
def isInsideLevel (m : MeanVol) (p : Nat × Nat × Nat) : Bool :=
  decide (isoLevel m < m.data p.1 p.2.1 p.2.2)

/-- Modelled from the spec: the axis-adjacent grid edges of the volume
(along x, along y and along z), each as an ordered pair of grid indices. -/
def volEdges (m : MeanVol) : List ((Nat × Nat × Nat) × (Nat × Nat × Nat)) :=
  ((List.range m.nz).flatMap fun z =>
      (List.range m.ny).flatMap fun y =>
        (List.range (m.nx - 1)).map fun x => ((z, y, x), (z, y, x + 1))) ++
    ((List.range m.nz).flatMap fun z =>
      (List.range (m.ny - 1)).flatMap fun y =>
        (List.range m.nx).map fun x => ((z, y, x), (z, y + 1, x))) ++
    ((List.range (m.nz - 1)).flatMap fun z =>
      (List.range m.ny).flatMap fun y =>
        (List.range m.nx).map fun x => ((z, y, x), (z + 1, y, x)))

/-- Modelled from the spec: the crossing edges, those whose two endpoint
values lie on opposite sides of the iso-level; isosurface vertices arise
exactly on these. -/
def crossEdges (m : MeanVol) : List ((Nat × Nat × Nat) × (Nat × Nat × Nat)) :=
  (volEdges m).filter fun e => isInsideLevel m e.1 != isInsideLevel m e.2

/-- Modelled from the spec: the isosurface vertex on a crossing edge, by
linear interpolation of the endpoint values, in voxel-index coordinates. -/
def interpVert (m : MeanVol) (e : (Nat × Nat × Nat) × (Nat × Nat × Nat)) : ℚ × ℚ × ℚ :=
  let va := m.data e.1.1 e.1.2.1 e.1.2.2
  let vb := m.data e.2.1 e.2.2.1 e.2.2.2
  let t : ℚ := if vb = va then 0 else (isoLevel m - va) / (vb - va)
  ((e.1.1 : ℚ) + t * ((e.2.1 : ℚ) - (e.1.1 : ℚ)),
    (e.1.2.1 : ℚ) + t * ((e.2.2.1 : ℚ) - (e.1.2.1 : ℚ)),
    (e.1.2.2 : ℚ) + t * ((e.2.2.2 : ℚ) - (e.1.2.2 : ℚ)))

/-- Modelled from the spec: the base indices of the unit grid cells of the
volume. -/
def volCells (m : MeanVol) : List (Nat × Nat × Nat) :=
  (List.range (m.nz - 1)).flatMap fun z =>
    (List.range (m.ny - 1)).flatMap fun y =>
      (List.range (m.nx - 1)).map fun x => (z, y, x)

/-- Modelled from the spec: the eight corners of the unit cell at a base
index. -/
def cellCorners (ce : Nat × Nat × Nat) : List (Nat × Nat × Nat) :=
  [(ce.1, ce.2.1, ce.2.2), (ce.1, ce.2.1, ce.2.2 + 1),
    (ce.1, ce.2.1 + 1, ce.2.2), (ce.1, ce.2.1 + 1, ce.2.2 + 1),
    (ce.1 + 1, ce.2.1, ce.2.2), (ce.1 + 1, ce.2.1, ce.2.2 + 1),
    (ce.1 + 1, ce.2.1 + 1, ce.2.2), (ce.1 + 1, ce.2.1 + 1, ce.2.2 + 1)]

/-- Modelled from the spec: a cell is mixed when its corners do not all
classify alike; triangles arise only from mixed cells. -/
def mixedCell (m : MeanVol) (ce : Nat × Nat × Nat) : Bool :=
  ((cellCorners ce).map (isInsideLevel m)).any fun b => b != isInsideLevel m ce

/-- Modelled from the spec: the marching-cubes-family extraction, at the
granularity the spec fixes: one vertex per crossing edge (by linear
interpolation, in voxel-index space) and triangular faces, as index
triples, only from mixed cells; the spec does not fix the triangulation
pattern, so faces carry a fixed canonical triple.  In particular the
output is empty exactly when the iso-level is crossed nowhere. -/
def marching_cubes_lewiner (m : MeanVol) :
    List (ℚ × ℚ × ℚ) × List (Nat × Nat × Nat) :=
  ((crossEdges m).map (interpVert m),
    ((volCells m).filter (mixedCell m)).map fun _ => (0, 1, 2))

/-- C5: for every volume whose values never cross the iso-level (a
constant volume, e.g. all-zero or all-one: with the midpoint level, "never
crossing" is exactly constancy), surface reconstruction returns the empty
surface, zero vertices and zero faces, as an ordinary value: no error is
raised (the embedding is a total function). -/
theorem constant_volume_empty_surface (mask : MeanVol) (ss : Nat × Nat × Nat) (c : ℚ)
    (h : ∀ z y x, mask.data z y x = c) :
    get_mean_mesh (fun m _ => marching_cubes_lewiner m) mask ss = ([], []) := by
  have hin : ∀ p : Nat × Nat × Nat, isInsideLevel mask p = decide (isoLevel mask < c) := by
    intro p
    unfold isInsideLevel
    rw [h]
  have hcross : crossEdges mask = [] := by
    refine List.filter_eq_nil_iff.mpr ?_
    intro e _
    rw [hin e.1, hin e.2]
    simp
  have hmix : ∀ ce, mixedCell mask ce = false := by
    intro ce
    show ((cellCorners ce).map fun p => isInsideLevel mask p).any
        (fun b => b != isInsideLevel mask ce) = false
    simp only [hin]
    generalize decide (isoLevel mask < c) = b
    simp
  show ((crossEdges mask).map (interpVert mask),
      ((volCells mask).filter (mixedCell mask)).map fun _ => ((0 : Nat), (1 : Nat), (2 : Nat))) =
      ([], [])
  rw [hcross,
    show (volCells mask).filter (mixedCell mask) = [] from
      List.filter_eq_nil_iff.mpr fun ce _ => by simp [hmix ce]]
  rfl

/-- The all-zero 2 x 2 x 2 mean volume. -/
def maskZero : MeanVol := ⟨2, 2, 2, fun _ _ _ => 0⟩

/-- Witness for C5 at a concrete input: the all-zero 2 x 2 x 2 volume
reconstructs to the empty surface. -/
theorem constant_volume_empty_surface_witness :
    (∀ z y x, maskZero.data z y x = 0) ∧
      get_mean_mesh (fun m _ => marching_cubes_lewiner m) maskZero (2, 2, 2) = ([], []) :=
  ⟨fun _ _ _ => rfl,
    constant_volume_empty_surface maskZero (2, 2, 2) 0 fun _ _ _ => rfl⟩

end NormalModeAnalysis
